import Mathlib

/-!
bashgpt: a verification development for `cmd/bashgpt/main.go`.

A shallow embedding of the argument splitter (`argsToPromptAndCmd`), the
response parser (`parseResponse`) and the self-upgrade path (`upgradeMain`,
`getLatestVersion`, `upgradeViaGithub`, `checkAndPrintUpgradeWarning`).

Go strings are embedded as Lean `String`s.  The patterns the program searches
for (the newline, the code fence, the delimiter) are ASCII, so searching by
character agrees with Go's search by byte on every valid UTF-8 string.
-/

namespace BashGpt

/-! ## Errors -/

/-- A `syscall.Errno`. -/
abbrev Errno := Nat

/-- The errno of `rename(2)` across file systems (`syscall.EXDEV`). -/
def EXDEV : Errno := 18

/-- The errno for a missing file (`syscall.ENOENT`). -/
def ENOENT : Errno := 2

/-- The errno for an existing file (`syscall.EEXIST`). -/
def EEXIST : Errno := 17

/-- Go `error` values, as far as the program builds or inspects them.
`pathError` is `*fs.PathError`, `linkError` is `*os.LinkError`, `other` is an
error of a library the program does not look into (net/http, encoding/json),
`errorf` is `fmt.Errorf` without `%w` and `wrapf` is `fmt.Errorf` whose format
ends in `%w`: `msg` is the formatted text before the wrapped error. -/
inductive GoError where
  | pathError (op path : String) (err : Errno)
  | linkError (op old new : String) (err : Errno)
  | other (msg : String)
  | errorf (msg : String)
  | wrapf (msg : String) (cause : GoError)
deriving DecidableEq, Repr

/-- The errno at the end of the `Unwrap` chain of an error is `target`. -/
def GoError.isErrno : GoError → Errno → Bool
  | .pathError _ _ e, t => e == t
  | .linkError _ _ _ e, t => e == t
  | .other _, _ => false
  | .errorf _, _ => false
  | .wrapf _ c, t => c.isErrno t

/-- `errors.Is(err, target)` for a `syscall.Errno` target; `err` may be `nil`. -/
def errorsIs : Option GoError → Errno → Bool
  | none, _ => false
  | some err, t => err.isErrno t

/-! ## `argsToPromptAndCmd` -/

/-- The constant `PromptDelim`. -/
def PromptDelim : String := "--"

/-- The three local variables of `argsToPromptAndCmd`. -/
structure SplitState where
  promptStr : String
  cmdAndArgs : List String
  foundDelim : Bool
deriving DecidableEq, Repr

/-- One iteration of the `for _, s := range slice` loop. -/
def argsStep (st : SplitState) (s : String) : SplitState :=
  if s = PromptDelim then
    { st with foundDelim := true }
  else if !st.foundDelim then
    { st with promptStr := st.promptStr ++ (s ++ " ") }
  else
    { st with cmdAndArgs := st.cmdAndArgs ++ [s] }

/-- The function `argsToPromptAndCmd`: the prompt and the command line. -/
def argsToPromptAndCmd (slice : List String) : String × List String :=
  let st := slice.foldl argsStep { promptStr := "", cmdAndArgs := [], foundDelim := false }
  (st.promptStr, st.cmdAndArgs)

/-! ## `parseResponse` -/

/-- `strings.HasPrefix(s, pre)`. -/
def stringsHasPrefix (s pre : String) : Bool :=
  pre.data.isPrefixOf s.data

/-- Whether `sub` occurs in `s` at some position. -/
def containsChars : List Char → List Char → Bool
  | [], sub => sub.isPrefixOf []
  | c :: cs, sub => sub.isPrefixOf (c :: cs) || containsChars cs sub

/-- `strings.Contains(s, sub)`. -/
def stringsContains (s sub : String) : Bool :=
  containsChars s.data sub.data

/-- The pieces of `s` between the occurrences of the character `sep`; one more
piece than there are occurrences. -/
def splitChars (sep : Char) : List Char → List (List Char)
  | [] => [[]]
  | c :: cs =>
    if c = sep then [] :: splitChars sep cs
    else (c :: (splitChars sep cs).headD []) :: (splitChars sep cs).tail

/-- `strings.Split(s, sep)` for a separator of one character, which is how the
program calls it (`"\n"`). -/
def stringsSplit (s : String) (sep : Char) : List String :=
  (splitChars sep s.data).map String.mk

/-- The code fence: three backticks. -/
def Fence : String := "```"

/-- The `strings.Builder` and the flag of the loop in `parseResponse`. -/
structure ParseState where
  sb : String
  isCmdText : Bool
deriving DecidableEq, Repr

/-- One iteration of the loop over the lines of the response. -/
def parseStep (st : ParseState) (respLine : String) : ParseState :=
  if stringsHasPrefix respLine Fence then
    { st with isCmdText := !st.isCmdText }
  else if st.isCmdText then
    { st with sb := st.sb ++ (respLine ++ "\n") }
  else
    st

/-- The function `parseResponse`: the text and the error it returns. -/
def parseResponse (resp : String) : String × Option GoError :=
  if stringsContains resp Fence then
    let st := (stringsSplit resp '\n').foldl parseStep { sb := "", isCmdText := false }
    (st.sb, none)
  else
    (resp, none)

/-- What the specification says of a line: it is kept, with a newline after
it, when it does not start with the fence and an odd number of the lines
before it do. -/
def specPiece (lines : List String) (i : Nat) : String :=
  if stringsHasPrefix (lines.getD i "") Fence = false ∧
      ((lines.take i).filter (fun l => stringsHasPrefix l Fence)).length % 2 = 1 then
    lines.getD i "" ++ "\n"
  else
    ""

/-- The specification's result for a response that contains a fence: the kept
lines, in order. -/
def specCommandText (lines : List String) : String :=
  String.join ((List.range lines.length).map (specPiece lines))

/-- The text is a sequence of lines, each one free of newlines, not starting
with the fence, and followed by a newline. -/
def KeptForm (s : String) : Prop :=
  ∃ kept : List (List Char),
    (∀ k ∈ kept, '\n' ∉ k ∧ Fence.data.isPrefixOf k = false) ∧
    s.data = (kept.map (fun k => k ++ ['\n'])).flatten


/-! ## The file system and the calls on it -/

/-- A regular file: its bytes and its permission bits. -/
structure File where
  content : List (Fin 256)
  mode : Nat
deriving DecidableEq, Repr

/-- The file system: which regular file, if any, each path names. -/
abbrev FS := String → Option File

/-- The file system with path `p` bound to `f` (or unbound, for `none`). -/
def FS.set (fs : FS) (p : String) (f : Option File) : FS :=
  fun q => if q = p then f else fs q

/-- The calls the program makes on its environment. -/
inductive Event where
  | httpGet (url : String)
  | createTemp (name : String)
  | fileWrite (name : String)
  | fileChmod (name : String) (mode : Nat)
  | fileClose (name : String)
  | executable
  | evalSymlinks (path : String)
  | rename (old new : String)
  | writeFile (name : String) (data : List (Fin 256)) (perm : Nat)
  | remove (name : String)
  | scanf
  | stdout (text : String)
  | stderr (text : String)
deriving DecidableEq, Repr

/-- The state the program runs in: the file system, and the calls made so far,
oldest first, each with the file system as it was right after the call. -/
structure World where
  fs : FS
  log : List (Event × FS)

/-- Log a call that leaves the file system as `fs`. -/
def World.record (w : World) (ev : Event) (fs : FS) : World :=
  { fs := fs, log := w.log ++ [(ev, fs)] }

/-- How `ioutil.WriteFile` can fail: at the open (nothing is changed), in the
middle of the write (the first `written` bytes are in the file), or at the
close (all bytes are in the file). -/
inductive WriteFault where
  | onOpen (e : Errno)
  | onWrite (e : Errno) (written : Nat)
  | onClose (e : Errno)
deriving DecidableEq, Repr

/-- The error `ioutil.WriteFile(name, ..)` returns for a fault. -/
def WriteFault.error (name : String) : WriteFault → GoError
  | .onOpen e => .pathError "open" name e
  | .onWrite e _ => .pathError "write" name e
  | .onClose e => .pathError "close" name e

/-- What the program does not decide itself: the embedded version, the
network, the process, the terminal, and the failure (if any) of each call on
the file system beyond the failures the file system state itself causes. -/
structure Env where
  /-- The text embedded from `version.txt`. -/
  versionText : String
  /-- The file mode creation mask of the process. -/
  umask : Nat
  /-- The result of `client.Get(url)` and then of `ioutil.ReadAll(resp.Body)`. -/
  httpGet : String → Except GoError (Except GoError (List (Fin 256)))
  /-- The result of `json.Unmarshal` and then of the `tag_name` string lookup. -/
  jsonTagName : List (Fin 256) → Except GoError (Option String)
  /-- The result of `os.TempDir()`. -/
  tempDir : String
  /-- The random number in the name `os.CreateTemp` settles on. -/
  tempRand : Nat
  createTempFault : Option Errno
  /-- A failure of `tmpFile.Write` after the given number of bytes. -/
  tmpWriteFault : Option (Errno × Nat)
  tmpChmodFault : Option Errno
  tmpCloseFault : Option Errno
  /-- The result of `os.Executable()`. -/
  executable : Except GoError String
  /-- The result of `filepath.EvalSymlinks(path)`. -/
  evalSymlinks : String → Except GoError String
  backupRenameFault : Option Errno
  installRenameFault : Option Errno
  fallbackWriteFault : Option WriteFault
  tmpRemoveFault : Option Errno
  rollbackRenameFault : Option Errno
  bakRemoveFault : Option Errno
  /-- The token `fmt.Scanf("%s", ..)` reads, `none` when it reads none and
  leaves its argument as it was. -/
  scanToken : Option String

/-- `os.Rename(old, new)`: an atomic move that replaces `new`; it fails, and
changes nothing, on a fault or when `old` does not exist. -/
def osRename (fault : Option Errno) (old new : String) (w : World) : Option GoError × World :=
  match fault with
  | some e => (some (.linkError "rename" old new e), w.record (.rename old new) w.fs)
  | none =>
    match w.fs old with
    | none => (some (.linkError "rename" old new ENOENT), w.record (.rename old new) w.fs)
    | some f =>
      (none, w.record (.rename old new)
        (if old = new then w.fs else (w.fs.set old none).set new (some f)))

/-- `os.Remove(name)` on a regular file. -/
def osRemove (fault : Option Errno) (name : String) (w : World) : Option GoError × World :=
  match fault with
  | some e => (some (.pathError "remove" name e), w.record (.remove name) w.fs)
  | none =>
    match w.fs name with
    | none => (some (.pathError "remove" name ENOENT), w.record (.remove name) w.fs)
    | some _ => (none, w.record (.remove name) (w.fs.set name none))

/-- The permission bits a file gets when a call creates it: the bits asked
for, without those set in the process's umask (`perm &^ umask`). -/
def maskPerm (perm umask : Nat) : Nat :=
  perm ^^^ (perm &&& umask)

/-- `ioutil.WriteFile(name, data, perm)`: create the file with permission
`perm` (before umask) when it does not exist, truncate it and keep its
permission when it does, then write `data`. -/
def ioutilWriteFile (umask : Nat) (fault : Option WriteFault) (name : String)
    (data : List (Fin 256)) (perm : Nat) (w : World) : Option GoError × World :=
  let mode := match w.fs name with
    | some f => f.mode
    | none => maskPerm perm umask
  match fault with
  | some (.onOpen e) =>
    (some (WriteFault.error name (.onOpen e)), w.record (.writeFile name data perm) w.fs)
  | some (.onWrite e n) =>
    (some (WriteFault.error name (.onWrite e n)),
      w.record (.writeFile name data perm)
        (w.fs.set name (some { content := data.take n, mode := mode })))
  | some (.onClose e) =>
    (some (WriteFault.error name (.onClose e)),
      w.record (.writeFile name data perm)
        (w.fs.set name (some { content := data, mode := mode })))
  | none =>
    (none, w.record (.writeFile name data perm)
      (w.fs.set name (some { content := data, mode := mode })))

/-- The constant `CommandName`. -/
def CommandName : String := "bashgpt"

/-- The helper `joinPath` of `os.CreateTemp`. -/
def joinPath (dir name : String) : String :=
  if dir.data.getLast? = some '/' then dir ++ name else dir ++ "/" ++ name

/-- The name `os.CreateTemp("", "bashgpt-*")` gives the file: the star is
replaced by a random number in decimal. -/
def tempName (env : Env) : String :=
  joinPath env.tempDir (CommandName ++ "-") ++ toString env.tempRand

/-- `os.CreateTemp("", "bashgpt-*")`: the file is opened with `O_EXCL` and
mode 0600 (before umask), so the name is one that names no file. -/
def osCreateTemp (env : Env) (w : World) : Except GoError String × World :=
  match env.createTempFault with
  | some e =>
    (.error (.pathError "open" (tempName env) e), w.record (.createTemp (tempName env)) w.fs)
  | none =>
    match w.fs (tempName env) with
    | some _ =>
      (.error (.pathError "open" (tempName env) EEXIST),
        w.record (.createTemp (tempName env)) w.fs)
    | none =>
      (.ok (tempName env),
        w.record (.createTemp (tempName env))
          (w.fs.set (tempName env) (some { content := [], mode := maskPerm 0o600 env.umask })))

/-- `tmpFile.Write(data)`: append to the file, if a path still names it. -/
def fileWrite (fault : Option (Errno × Nat)) (name : String) (data : List (Fin 256))
    (w : World) : Option GoError × World :=
  let written := match fault with
    | some (_, n) => data.take n
    | none => data
  let fs := match w.fs name with
    | some f => w.fs.set name (some { f with content := f.content ++ written })
    | none => w.fs
  match fault with
  | some (e, _) => (some (.pathError "write" name e), w.record (.fileWrite name) fs)
  | none => (none, w.record (.fileWrite name) fs)

/-- `tmpFile.Chmod(mode)`. -/
def fileChmod (fault : Option Errno) (name : String) (mode : Nat) (w : World) :
    Option GoError × World :=
  match fault with
  | some e => (some (.pathError "chmod" name e), w.record (.fileChmod name mode) w.fs)
  | none =>
    match w.fs name with
    | some f => (none, w.record (.fileChmod name mode) (w.fs.set name (some { f with mode := mode })))
    | none => (none, w.record (.fileChmod name mode) w.fs)

/-- `tmpFile.Close()`. -/
def fileClose (fault : Option Errno) (name : String) (w : World) : Option GoError × World :=
  match fault with
  | some e => (some (.pathError "close" name e), w.record (.fileClose name) w.fs)
  | none => (none, w.record (.fileClose name) w.fs)

/-! ## The upgrade -/

/-- The constant `DevVersionText`. -/
def DevVersionText : String := "v0.devbuild"

/-- The constant `LatestReleaseUrl`. -/
def LatestReleaseUrl : String :=
  "https://api.github.com/repos/mikeb26/bashgpt/releases/latest"

/-- The constant `LatestDownloadFmt`, formatted with the version. -/
def latestDownloadUrl (latestVer : String) : String :=
  "https://github.com/mikeb26/bashgpt/releases/download/" ++ latestVer ++ "/bashgpt"

/-- The text of the errors of the download. -/
def downloadFailed (env : Env) : String :=
  "Failed to download version " ++ env.versionText ++ ": "

/-- The text of the errors of the replacement. -/
def couldNotReplace (myBinaryPath : String) : String :=
  "Could not replace existing " ++ myBinaryPath ++ "; do you need to be root?: "

/-- The text of the errors of the path lookup. -/
def couldNotDetermine : String :=
  "Could not determine path to " ++ CommandName ++ ": "

/-- The function `getLatestVersion`. -/
def getLatestVersion (env : Env) (w : World) : Except GoError String × World :=
  let w := w.record (.httpGet LatestReleaseUrl) w.fs
  match env.httpGet LatestReleaseUrl with
  | .error err => (.error err, w)
  | .ok (.error err) => (.error err, w)
  | .ok (.ok releaseJsonDoc) =>
    match env.jsonTagName releaseJsonDoc with
    | .error err => (.error err, w)
    | .ok none => (.error (.errorf ("Could not parse " ++ LatestReleaseUrl)), w)
    | .ok (some latestRelease) => (.ok latestRelease, w)

/-- The last part of `upgradeViaGithub`, from the rename of the running binary
to its backup path on (the lines after `myBinaryPathBak := ..`). -/
def install (env : Env) (latestVer tmpName : String) (binaryContent : List (Fin 256))
    (myBinaryPath : String) (w : World) : Option GoError × World :=
  let myBinaryPathBak := myBinaryPath ++ ".bak"
  match osRename env.backupRenameFault myBinaryPath myBinaryPathBak w with
  | (some err, w) => (some (.wrapf (couldNotReplace myBinaryPath) err), w)
  | (none, w) =>
    let r := osRename env.installRenameFault tmpName myBinaryPath w
    let r :=
      if errorsIs r.1 EXDEV then
        let r := ioutilWriteFile env.umask env.fallbackWriteFault myBinaryPath binaryContent
          0o755 r.2
        (r.1, (osRemove env.tmpRemoveFault tmpName r.2).2)
      else r
    match r.1 with
    | some err =>
      let err := GoError.wrapf (couldNotReplace myBinaryPath) err
      (some err, (osRename env.rollbackRenameFault myBinaryPathBak myBinaryPath r.2).2)
    | none =>
      let w := (osRemove env.bakRemoveFault myBinaryPathBak r.2).2
      (none, w.record (.stdout ("Upgrade " ++ myBinaryPath ++ " to " ++ latestVer ++
        " complete\n")) w.fs)

/-- The function `upgradeViaGithub`. -/
def upgradeViaGithub (env : Env) (latestVer : String) (w : World) : Option GoError × World :=
  let w := w.record (.httpGet (latestDownloadUrl latestVer)) w.fs
  match env.httpGet (latestDownloadUrl latestVer) with
  | .error err => (some (.wrapf (downloadFailed env) err), w)
  | .ok body =>
    match osCreateTemp env w with
    | (.error err, w) => (some (.wrapf "Failed to create temp file: " err), w)
    | (.ok tmpName, w) =>
      match body with
      | .error err => (some (.wrapf (downloadFailed env) err), w)
      | .ok binaryContent =>
        match fileWrite env.tmpWriteFault tmpName binaryContent w with
        | (some err, w) => (some (.wrapf (downloadFailed env) err), w)
        | (none, w) =>
          match fileChmod env.tmpChmodFault tmpName 0o755 w with
          | (some err, w) => (some (.wrapf (downloadFailed env) err), w)
          | (none, w) =>
            match fileClose env.tmpCloseFault tmpName w with
            | (some err, w) => (some (.wrapf (downloadFailed env) err), w)
            | (none, w) =>
              let w := w.record .executable w.fs
              match env.executable with
              | .error err => (some (.wrapf couldNotDetermine err), w)
              | .ok myBinaryPath =>
                let w := w.record (.evalSymlinks myBinaryPath) w.fs
                match env.evalSymlinks myBinaryPath with
                | .error err => (some (.wrapf couldNotDetermine err), w)
                | .ok myBinaryPath => install env latestVer tmpName binaryContent myBinaryPath w

/-- How a call of `upgradeMain` ends: it returns `nil` or an error, or the
index expression `shouldUpgrade[0]` is out of range. -/
inductive Outcome where
  | returned (err : Option GoError)
  | panicked
deriving DecidableEq, Repr

/-- The question `upgradeMain` prints. -/
def upgradePrompt (latestVer : String) : String :=
  "A new version of " ++ CommandName ++ " is available (" ++ latestVer ++
    "). Upgrade? (Y/N) [Y]: "

/-- The function `upgradeMain`.  The answer is trimmed and upper-cased with
`String.trim` and `String.toUpper`: on a token as `%s` reads it (no white
space in it) they agree with `strings.TrimSpace` and `strings.ToUpper` on
whether the first byte of the result is `Y`, since no character other than `y`
has `Y` as its upper case and no other character starts with that byte. -/
def upgradeMain (env : Env) (args : List String) (w : World) : Outcome × World :=
  if env.versionText = DevVersionText then
    (.returned none,
      w.record (.stderr ("Skipping " ++ CommandName ++ " upgrade on development version\n")) w.fs)
  else
    match getLatestVersion env w with
    | (.error err, w) => (.returned (some err), w)
    | (.ok latestVer, w) =>
      if latestVer = env.versionText then
        (.returned none,
          w.record (.stdout (CommandName ++ " " ++ env.versionText ++
            " is already the latest version\n")) w.fs)
      else
        let w := w.record (.stdout (upgradePrompt latestVer)) w.fs
        let w := w.record .scanf w.fs
        let shouldUpgrade := match env.scanToken with
          | some token => token
          | none => "Y"
        let shouldUpgrade := shouldUpgrade.trim.toUpper
        match shouldUpgrade.data with
        | [] => (.panicked, w)
        | c :: _ =>
          if c ≠ 'Y' then (.returned none, w)
          else
            let w := w.record (.stdout ("Upgrading " ++ env.versionText ++ " from " ++
              CommandName ++ " to " ++ latestVer ++ "...\n")) w.fs
            let r := upgradeViaGithub env latestVer w
            (.returned r.1, r.2)

/-- The function `checkAndPrintUpgradeWarning`. -/
def checkAndPrintUpgradeWarning (env : Env) (w : World) : Bool × World :=
  if env.versionText = DevVersionText then
    (false, w)
  else
    match getLatestVersion env w with
    | (.error _, w) => (false, w)
    | (.ok latestVer, w) =>
      if latestVer = env.versionText then
        (false, w)
      else
        (true, w.record (.stderr ("*WARN*: A new version of " ++ CommandName ++
          " is available (" ++ latestVer ++ "). Please upgrade via '" ++ CommandName ++
          " upgrade'.\n\n")) w.fs)

/-- The run of `upgradeViaGithub` gets as far as the installer: the download,
the temporary file (created, written, made executable, closed) and the lookup
of the running binary's path `myBinaryPath` all succeed. -/
structure ReachesInstall (env : Env) (latestVer : String) (w : World)
    (binaryContent : List (Fin 256)) (myBinaryPath : String) : Prop where
  get : env.httpGet (latestDownloadUrl latestVer) = .ok (.ok binaryContent)
  create : env.createTempFault = none
  fresh : w.fs (tempName env) = none
  write : env.tmpWriteFault = none
  chmod : env.tmpChmodFault = none
  close : env.tmpCloseFault = none
  path : ∃ p, env.executable = .ok p ∧ env.evalSymlinks p = .ok myBinaryPath

/-- The calls of `upgradeViaGithub` before the installer starts. -/
def Event.isFetch : Event → Bool
  | .httpGet _ => true
  | .createTemp _ => true
  | .fileWrite _ => true
  | .fileChmod _ _ => true
  | .fileClose _ => true
  | .executable => true
  | .evalSymlinks _ => true
  | _ => false

/-- The calls a run has added to the log of the world it started in. -/
def newLog (start final : World) : List (Event × FS) :=
  final.log.drop start.log.length

/-- An environment for examples: version 1.2.0 is running from
`/usr/local/bin/bashgpt` under the umask 022, version 1.3.0 is the latest, and
no call fails. -/
def exampleEnv : Env where
  versionText := "v1.2.0"
  umask := 0o022
  httpGet := fun url =>
    if url = LatestReleaseUrl then .ok (.ok [1])
    else if url = latestDownloadUrl "v1.3.0" then .ok (.ok [127, 69, 76, 70])
    else .error (.other "404")
  jsonTagName := fun _ => .ok (some "v1.3.0")
  tempDir := "/tmp"
  tempRand := 42
  createTempFault := none
  tmpWriteFault := none
  tmpChmodFault := none
  tmpCloseFault := none
  executable := .ok "/usr/local/bin/bashgpt"
  evalSymlinks := fun p => .ok p
  backupRenameFault := none
  installRenameFault := none
  fallbackWriteFault := none
  tmpRemoveFault := none
  rollbackRenameFault := none
  bakRemoveFault := none
  scanToken := some "y"

/-- The original binary of the examples. -/
def exampleBinary : File := { content := [1, 2, 3], mode := 0o755 }

/-- A world for examples: the original binary at its path, nothing else. -/
def exampleWorld : World where
  fs := fun p => if p = "/usr/local/bin/bashgpt" then some exampleBinary else none
  log := []

/-! ## Lemmas on strings -/

theorem containsChars_iff (s sub : List Char) : containsChars s sub = true ↔ sub <:+: s := by
  induction s with
  | nil => simp [containsChars, List.isPrefixOf_iff_prefix]
  | cons c cs ih =>
    simp only [containsChars, Bool.or_eq_true, List.isPrefixOf_iff_prefix, ih]
    rw [List.infix_cons_iff]

theorem splitChars_ne_nil (sep : Char) (s : List Char) : splitChars sep s ≠ [] := by
  cases s with
  | nil => simp [splitChars]
  | cons c cs => simp only [splitChars]; split <;> simp

theorem splitChars_head_starts (sep : Char) (s : List Char) :
    (splitChars sep s).headD [] <+: s := by
  induction s with
  | nil => simp [splitChars]
  | cons c cs ih =>
    simp only [splitChars]
    split
    · simp
    · simpa [List.prefix_cons_inj] using ih

theorem splitChars_piece_within (sep : Char) (s : List Char) :
    ∀ p ∈ splitChars sep s, p <:+: s := by
  induction s with
  | nil => simp [splitChars]
  | cons c cs ih =>
    intro p hp
    simp only [splitChars] at hp
    split at hp
    · rcases List.mem_cons.1 hp with h | h
      · subst h; exact List.nil_infix
      · exact List.infix_cons (ih p h)
    · rcases List.mem_cons.1 hp with h | h
      · subst h
        exact ((List.prefix_cons_inj c).2 (splitChars_head_starts sep cs)).isInfix
      · exact List.infix_cons (ih p (List.mem_of_mem_tail h))

theorem splitChars_sep_free (sep : Char) (s : List Char) :
    ∀ p ∈ splitChars sep s, sep ∉ p := by
  induction s with
  | nil => simp [splitChars]
  | cons c cs ih =>
    intro p hp
    simp only [splitChars] at hp
    split at hp
    · rcases List.mem_cons.1 hp with h | h
      · subst h; simp
      · exact ih p h
    · rename_i hc
      rcases List.mem_cons.1 hp with h | h
      · subst h
        have hne := splitChars_ne_nil sep cs
        have hh : (splitChars sep cs).headD [] ∈ splitChars sep cs := by
          cases hs : splitChars sep cs with
          | nil => exact absurd hs hne
          | cons a as => simp
        have := ih _ hh
        simp only [List.mem_cons, not_or]
        exact ⟨fun h => hc h.symm, this⟩
      · exact ih p (List.mem_of_mem_tail h)

theorem splitChars_append_sep (sep : Char) (l rest : List Char) (h : sep ∉ l) :
    splitChars sep (l ++ sep :: rest) = l :: splitChars sep rest := by
  induction l with
  | nil => simp [splitChars]
  | cons c cs ih =>
    simp only [List.mem_cons, not_or] at h
    have hc : ¬ c = sep := fun e => h.1 e.symm
    simp [splitChars, hc, ih h.2]

theorem string_join_snoc (l : List String) (x : String) :
    String.join (l ++ [x]) = String.join l ++ x := by
  simp [String.join, List.foldl_append]

theorem specPiece_append (l : List String) (x : String) (i : Nat) (hi : i < l.length) :
    specPiece (l ++ [x]) i = specPiece l i := by
  have h1 : (l ++ [x]).getD i "" = l.getD i "" := by
    simp [List.getD_eq_getElem?_getD, List.getElem?_append_left hi]
  have h2 : (l ++ [x]).take i = l.take i := by
    rw [List.take_append_of_le_length (Nat.le_of_lt hi)]
  simp only [specPiece, h1, h2]

theorem specCommandText_snoc (l : List String) (x : String) :
    specCommandText (l ++ [x]) = specCommandText l ++ specPiece (l ++ [x]) l.length := by
  have hmap : (List.range l.length).map (specPiece (l ++ [x])) =
      (List.range l.length).map (specPiece l) := by
    apply List.map_congr_left
    intro i hi
    exact specPiece_append l x i (List.mem_range.1 hi)
  simp only [specCommandText, List.length_append, List.length_singleton, List.range_succ,
    List.map_append, List.map_singleton, string_join_snoc, hmap]

/-- The loop of `parseResponse` computes the specification's text, and its
flag is the parity of the fences seen. -/
theorem parse_loop_spec (lines : List String) :
    (lines.foldl parseStep { sb := "", isCmdText := false }).sb = specCommandText lines ∧
    ((lines.foldl parseStep { sb := "", isCmdText := false }).isCmdText = true ↔
      (lines.filter (fun l => stringsHasPrefix l Fence)).length % 2 = 1) := by
  induction lines using List.reverseRecOn with
  | nil => simp [specCommandText, String.join]
  | append_singleton l x ih =>
    obtain ⟨ih1, ih2⟩ := ih
    rw [List.foldl_append, specCommandText_snoc]
    simp only [List.foldl_cons, List.foldl_nil, List.filter_append]
    have hget : (l ++ [x]).getD l.length "" = x := by
      simp [List.getD_eq_getElem?_getD]
    have htake : (l ++ [x]).take l.length = l := by simp
    by_cases hx : stringsHasPrefix x Fence = true
    · simp only [parseStep, hx, if_true, specPiece, hget, htake]
      constructor
      · simp [ih1]
      · simp only [List.filter_cons, hx, if_true, List.filter_nil, List.length_append,
          List.length_singleton, Bool.not_eq_true', ← Bool.not_eq_true, ih2]
        omega
    · simp only [Bool.not_eq_true] at hx
      by_cases hc : (l.foldl parseStep { sb := "", isCmdText := false }).isCmdText = true
      · have hodd := ih2.1 hc
        simp [parseStep, hx, hc, specPiece, hget, htake, hodd, ih1]
      · have hodd : ¬ (l.filter (fun l => stringsHasPrefix l Fence)).length % 2 = 1 :=
          fun h => hc (ih2.2 h)
        simp only [Bool.not_eq_true] at hc
        simp [parseStep, hx, hc, specPiece, hget, htake, hodd, ih1]

/-- With the flag down and no line starting with the fence, the loop of
`parseResponse` writes nothing. -/
theorem parse_loop_no_fence (lines : List String) (st : ParseState)
    (hl : ∀ l ∈ lines, stringsHasPrefix l Fence = false) (hst : st.isCmdText = false) :
    lines.foldl parseStep st = st := by
  induction lines generalizing st with
  | nil => rfl
  | cons x xs ih =>
    have hx := hl x (List.mem_cons_self _ _)
    have hstep : parseStep st x = st := by simp [parseStep, hx, hst]
    rw [List.foldl_cons, hstep]
    exact ih st (fun l h => hl l (List.mem_cons_of_mem _ h)) hst

theorem parse_loop_keptForm (lines : List String) (st : ParseState)
    (hl : ∀ l ∈ lines, '\n' ∉ l.data) (hst : KeptForm st.sb) :
    KeptForm (lines.foldl parseStep st).sb := by
  induction lines generalizing st with
  | nil => exact hst
  | cons x xs ih =>
    rw [List.foldl_cons]
    apply ih _ (fun l h => hl l (List.mem_cons_of_mem _ h))
    unfold parseStep
    split
    · exact hst
    · rename_i hx
      split
      · obtain ⟨kept, hk, hd⟩ := hst
        refine ⟨kept ++ [x.data], ?_, ?_⟩
        · intro k hkm
          rcases List.mem_append.1 hkm with h | h
          · exact hk k h
          · have hkx : k = x.data := by simpa using h
            subst hkx
            refine ⟨hl x (List.mem_cons_self _ _), ?_⟩
            exact (Bool.not_eq_true _).mp hx
        · simp [String.data_append, hd]
      · exact hst

theorem splitChars_kept (kept : List (List Char))
    (hk : ∀ k ∈ kept, '\n' ∉ k) :
    splitChars '\n' ((kept.map (fun k => k ++ ['\n'])).flatten) = kept ++ [[]] := by
  induction kept with
  | nil => simp [splitChars]
  | cons k ks ih =>
    have h1 := hk k (List.mem_cons_self _ _)
    have h2 := ih (fun k h => hk k (List.mem_cons_of_mem _ h))
    simp only [List.map_cons, List.flatten_cons, List.append_assoc, List.singleton_append,
      List.cons_append, List.nil_append]
    rw [splitChars_append_sep _ _ _ h1, h2]

theorem keptForm_lines (s : String) (h : KeptForm s) :
    ∀ l ∈ stringsSplit s '\n', stringsHasPrefix l Fence = false := by
  obtain ⟨kept, hk, hd⟩ := h
  intro l hl
  simp only [stringsSplit, hd, splitChars_kept kept (fun k h => (hk k h).1), List.mem_map] at hl
  obtain ⟨p, hp, rfl⟩ := hl
  rcases List.mem_append.1 hp with h | h
  · simpa [stringsHasPrefix] using (hk p h).2
  · have : p = [] := by simpa using h
    subst this
    rfl

theorem no_fence_lines (s : String) (h : stringsContains s Fence = false) :
    ∀ l ∈ stringsSplit s '\n', stringsHasPrefix l Fence = false := by
  intro l hl
  simp only [stringsSplit, List.mem_map] at hl
  obtain ⟨p, hp, rfl⟩ := hl
  by_contra hne
  have hpre : Fence.data <+: p := by
    simpa [stringsHasPrefix, List.isPrefixOf_iff_prefix] using hne
  have hin : Fence.data <:+: s.data :=
    List.IsInfix.trans hpre.isInfix (splitChars_piece_within _ _ p hp)
  have := (containsChars_iff s.data Fence.data).2 hin
  simp [stringsContains, this] at h

/-! ## Theorems: `argsToPromptAndCmd` -/

/-- Once the delimiter has been seen, the loop appends every later argument
that is not itself the delimiter. -/
theorem args_loop_after_delim (args : List String) (st : SplitState)
    (h : st.foundDelim = true) :
    args.foldl argsStep st =
      { st with cmdAndArgs := st.cmdAndArgs ++ args.filter (fun s => s ≠ PromptDelim) } := by
  induction args generalizing st with
  | nil => simp
  | cons x xs ih =>
    rw [List.foldl_cons]
    by_cases hx : x = PromptDelim
    · have hstep : argsStep st x = st := by
        cases st
        simp_all [argsStep]
      rw [hstep, ih st h]
      simp [hx]
    · have hstep : argsStep st x = { st with cmdAndArgs := st.cmdAndArgs ++ [x] } := by
        simp [argsStep, hx, h]
      rw [hstep, ih { st with cmdAndArgs := st.cmdAndArgs ++ [x] } h]
      simp [hx]

/-- What `argsToPromptAndCmd` computes, for every argument list: the prompt is
built from the arguments before the first delimiter, and the command line is
what follows it with every further delimiter left out. -/
theorem argsToPromptAndCmd_eq (args : List String) :
    argsToPromptAndCmd args =
      (String.join ((args.takeWhile (fun s => s ≠ PromptDelim)).map (fun s => s ++ " ")),
        (args.dropWhile (fun s => s ≠ PromptDelim)).filter (fun s => s ≠ PromptDelim)) := by
  have key : ∀ (l : List String) (p : String),
      l.foldl argsStep { promptStr := p, cmdAndArgs := [], foundDelim := false } =
        { promptStr :=
            (l.takeWhile (fun s => s ≠ PromptDelim)).foldl (fun r s => r ++ (s ++ " ")) p,
          cmdAndArgs := (l.dropWhile (fun s => s ≠ PromptDelim)).filter (fun s => s ≠ PromptDelim),
          foundDelim := l.any (fun s => s = PromptDelim) } := by
    intro l
    induction l with
    | nil => intro p; simp
    | cons x xs ih =>
      intro p
      rw [List.foldl_cons]
      by_cases hx : x = PromptDelim
      · have hstep : argsStep { promptStr := p, cmdAndArgs := [], foundDelim := false } x =
            { promptStr := p, cmdAndArgs := [], foundDelim := true } := by
          simp [argsStep, hx]
        rw [hstep, args_loop_after_delim _ _ rfl]
        simp [hx]
      · have hstep : argsStep { promptStr := p, cmdAndArgs := [], foundDelim := false } x =
            { promptStr := p ++ (x ++ " "), cmdAndArgs := [], foundDelim := false } := by
          simp [argsStep, hx]
        rw [hstep, ih]
        simp [hx]
  have hjoin : ∀ (l : List String) (p : String),
      l.foldl (fun r s => r ++ (s ++ " ")) p = p ++ String.join (l.map (fun s => s ++ " ")) := by
    intro l
    induction l using List.reverseRecOn with
    | nil => intro p; simp [String.join]
    | append_singleton l x ih =>
      intro p
      rw [List.foldl_append, List.map_append, List.map_singleton, string_join_snoc, ih]
      simp [String.append_assoc]
  simp only [argsToPromptAndCmd, key, hjoin, String.empty_append]

/-- C9: `argsToPromptAndCmd` does not always return, as the command line,
exactly what follows the first delimiter.  For the arguments
`undo -- git checkout -- main.go` it returns the prompt `undo ` and the command
line `git checkout main.go`: the delimiter that belongs to the command is
dropped, so the command run is not the one the response gave. -/
theorem argsToPromptAndCmd_drops_later_delim :
    argsToPromptAndCmd ["undo", "--", "git", "checkout", "--", "main.go"] =
      ("undo ", ["git", "checkout", "main.go"]) := by
  decide

/-! ## Theorems: `parseResponse` -/

/-- C10: `parseResponse` never returns an error; its text is the response
itself when the response has no fence and otherwise the lines the
specification keeps (those not starting with the fence and preceded by an odd
number of lines that do), each followed by a newline; no line of the text
starts with the fence; and a response whose fences are all in the middle of a
line gives the empty text. -/
theorem parseResponse_spec (resp : String) :
    (parseResponse resp).2 = none ∧
    (parseResponse resp).1 =
      (if stringsContains resp Fence then specCommandText (stringsSplit resp '\n') else resp) ∧
    (∀ l ∈ stringsSplit (parseResponse resp).1 '\n', stringsHasPrefix l Fence = false) ∧
    (stringsContains resp Fence = true →
      (∀ l ∈ stringsSplit resp '\n', stringsHasPrefix l Fence = false) →
      (parseResponse resp).1 = "") := by
  by_cases hc : stringsContains resp Fence = true
  · have hres : (parseResponse resp).1 =
        ((stringsSplit resp '\n').foldl parseStep { sb := "", isCmdText := false }).sb := by
      simp [parseResponse, hc]
    refine ⟨by simp [parseResponse, hc], ?_, ?_, ?_⟩
    · rw [hres, if_pos hc]
      exact (parse_loop_spec _).1
    · rw [hres]
      apply keptForm_lines
      apply parse_loop_keptForm
      · intro l hl
        simp only [stringsSplit, List.mem_map] at hl
        obtain ⟨p, hp, rfl⟩ := hl
        exact splitChars_sep_free _ _ p hp
      · exact ⟨[], by simp, rfl⟩
    · intro _ hl
      rw [hres, parse_loop_no_fence _ _ hl rfl]
  · have hres : (parseResponse resp).1 = resp := by simp [parseResponse, hc]
    refine ⟨by simp [parseResponse, hc], ?_, ?_, ?_⟩
    · rw [hres, if_neg hc]
    · rw [hres]
      exact no_fence_lines resp (by simpa using hc)
    · intro h
      exact absurd h hc

/-- C10 at a response with one fenced block between two lines of prose. -/
theorem parseResponse_spec_witness :
    (parseResponse "Try:\n```bash\nls -l\n```\nDone.").1 = "ls -l\n" ∧
    (parseResponse "use ```ls``` here").1 = "" := by
  have h1 := (parseResponse_spec "Try:\n```bash\nls -l\n```\nDone.").2.1
  have h2 := (parseResponse_spec "use ```ls``` here").2.2.2 (by decide) (by decide)
  exact ⟨h1.trans (by decide), h2⟩

/-! ## Lemmas on paths -/

theorem toDigitsCore_ends (b : Nat) (f n : Nat) (ds : List Char) :
    ∃ pre, Nat.toDigitsCore b f n ds = pre ++ ds := by
  induction f generalizing n ds with
  | zero => exact ⟨[], by simp [Nat.toDigitsCore]⟩
  | succ f ih =>
    simp only [Nat.toDigitsCore]
    split
    · exact ⟨[Nat.digitChar (n % b)], rfl⟩
    · obtain ⟨pre, h⟩ := ih (n / b) (Nat.digitChar (n % b) :: ds)
      exact ⟨pre ++ [Nat.digitChar (n % b)], by simp [h]⟩

theorem natRepr_ends (n : Nat) :
    ∃ pre, (toString n).data = pre ++ [Nat.digitChar (n % 10)] := by
  show ∃ pre, (Nat.repr n).data = pre ++ [Nat.digitChar (n % 10)]
  simp only [Nat.repr, Nat.toDigits, Nat.toDigitsCore, List.asString]
  split
  · exact ⟨[], rfl⟩
  · exact toDigitsCore_ends 10 n (n / 10) [Nat.digitChar (n % 10)]

theorem digitChar_ne_k (m : Nat) (h : m < 10) : Nat.digitChar m ≠ 'k' := by
  interval_cases m <;> decide

/-- The temporary file is never the backup path: its name ends in a digit. -/
theorem tempName_ne_bak (env : Env) (P : String) : tempName env ≠ P ++ ".bak" := by
  intro h
  obtain ⟨pre, hpre⟩ := natRepr_ends env.tempRand
  have hd := congrArg String.data h
  simp only [tempName, String.data_append, hpre] at hd
  have hk : P.data ++ ['.', 'b', 'a', 'k'] = (P.data ++ ['.', 'b', 'a']) ++ ['k'] := by simp
  rw [hk, ← List.append_assoc] at hd
  have hl := congrArg List.getLast? hd
  rw [List.getLast?_concat, List.getLast?_concat] at hl
  exact digitChar_ne_k _ (Nat.mod_lt _ (by decide)) (Option.some.inj hl)

/-- The backup path is not the path of the binary. -/
theorem bak_ne (P : String) : P ++ ".bak" ≠ P := by
  intro h
  have := congrArg String.length h
  simp [String.length_append] at this
  exact absurd this (by decide)

/-! ## Lemmas on the upgrade -/

theorem FS.set_same (fs : FS) (p : String) (f : Option File) : fs.set p f p = f := by
  simp [FS.set]

theorem FS.set_other (fs : FS) (p q : String) (f : Option File) (h : q ≠ p) :
    fs.set p f q = fs q := by
  simp [FS.set, h]

/-- A run that reaches the installer starts it with the downloaded bytes in
the temporary file, executable, and with every other path as it was. -/
theorem upgradeViaGithub_reaches (env : Env) (latestVer : String) (w : World)
    (binaryContent : List (Fin 256)) (P : String)
    (h : ReachesInstall env latestVer w binaryContent P) :
    ∃ w1 : World,
      upgradeViaGithub env latestVer w = install env latestVer (tempName env) binaryContent P w1 ∧
      w1.fs (tempName env) = some { content := binaryContent, mode := 0o755 } ∧
      (∀ q, q ≠ tempName env → w1.fs q = w.fs q) ∧
      ∃ pre : List (Event × FS), w1.log = w.log ++ pre ∧
        ∀ e ∈ pre, e.1.isFetch = true ∧ ∀ q, q ≠ tempName env → e.2 q = w.fs q := by
  obtain ⟨hget, hcreate, hfresh, hwrite, hchmod, hclose, p0, hexe, hsym⟩ := h
  apply Exists.intro
  refine And.intro ?h1 (And.intro ?h2 (And.intro ?h3 ?h45))
  case h1 =>
    simp only [upgradeViaGithub, osCreateTemp, fileWrite, fileChmod, fileClose, World.record,
      hget, hcreate, hfresh, hwrite, hchmod, hclose, hexe, hsym, FS.set_same]
    exact rfl
  case h2 => simp [FS.set]
  case h3 =>
    intro q hq
    simp [FS.set, hq]
  case h45 =>
    apply Exists.intro
    refine And.intro ?h4 ?h5
    case h4 =>
      simp only [List.append_assoc]
      exact rfl
    case h5 =>
      intro e he
      simp only [List.cons_append, List.nil_append, List.mem_cons, List.not_mem_nil,
        or_false] at he
      rcases he with rfl | rfl | rfl | rfl | rfl | rfl | rfl <;>
        refine ⟨rfl, fun q hq => ?_⟩ <;> simp [FS.set, hq]

/-- The temporary file is not the running binary: its name was free when the
binary was already there. -/
theorem tempName_ne_path (env : Env) (w : World) (P : String) (orig : File)
    (hfresh : w.fs (tempName env) = none) (horig : w.fs P = some orig) : tempName env ≠ P := by
  intro h
  rw [h, horig] at hfresh
  exact Option.noConfusion hfresh

/-! ## Theorems: the installer -/

/-- C4: when the download, the temporary file, the backup rename, the rename
of the temporary file onto the binary's path and the removal of the backup all
succeed, `upgradeViaGithub` returns nil, the path of the binary holds the
downloaded bytes with mode 0755, and nothing is left at the backup path. -/
theorem upgrade_success (env : Env) (latestVer : String) (w : World)
    (binaryContent : List (Fin 256)) (P : String) (orig : File)
    (hreach : ReachesInstall env latestVer w binaryContent P)
    (horig : w.fs P = some orig)
    (hbak : env.backupRenameFault = none)
    (hinst : env.installRenameFault = none)
    (hrm : env.bakRemoveFault = none) :
    (upgradeViaGithub env latestVer w).1 = none ∧
    (upgradeViaGithub env latestVer w).2.fs P = some { content := binaryContent, mode := 0o755 } ∧
    (upgradeViaGithub env latestVer w).2.fs (P ++ ".bak") = none := by
  have ht1 : tempName env ≠ P := tempName_ne_path env w P orig hreach.fresh horig
  have ht2 : tempName env ≠ P ++ ".bak" := tempName_ne_bak env P
  have hb : P ++ ".bak" ≠ P := bak_ne P
  obtain ⟨w1, hrun, htmp, hfs, -⟩ := upgradeViaGithub_reaches env latestVer w binaryContent P hreach
  have hP : w1.fs P = some orig := by rw [hfs P (Ne.symm ht1), horig]
  rw [hrun]
  simp [install, osRename, osRemove, errorsIs, World.record, FS.set, hbak, hinst, hrm, hP, htmp,
    ht1, ht2, hb, Ne.symm ht1, Ne.symm ht2, Ne.symm hb]

/-- C4 at the example: version 1.3.0 is installed over the original binary. -/
theorem upgrade_success_witness :
    ReachesInstall exampleEnv "v1.3.0" exampleWorld [127, 69, 76, 70] "/usr/local/bin/bashgpt" ∧
    exampleWorld.fs "/usr/local/bin/bashgpt" = some exampleBinary ∧
    (upgradeViaGithub exampleEnv "v1.3.0" exampleWorld).1 = none ∧
    (upgradeViaGithub exampleEnv "v1.3.0" exampleWorld).2.fs "/usr/local/bin/bashgpt" =
      some { content := [127, 69, 76, 70], mode := 0o755 } ∧
    (upgradeViaGithub exampleEnv "v1.3.0" exampleWorld).2.fs ("/usr/local/bin/bashgpt" ++ ".bak") =
      none :=
  have hreach : ReachesInstall exampleEnv "v1.3.0" exampleWorld [127, 69, 76, 70]
      "/usr/local/bin/bashgpt" :=
    ⟨rfl, rfl, by decide, rfl, rfl, rfl, ⟨"/usr/local/bin/bashgpt", rfl, rfl⟩⟩
  ⟨hreach, by decide,
    upgrade_success exampleEnv "v1.3.0" exampleWorld [127, 69, 76, 70] "/usr/local/bin/bashgpt"
      exampleBinary hreach (by decide) rfl rfl rfl⟩

/-- C1, as stated, fails: in the example run every step succeeds, and right
after the first step of the installer (the rename of the binary to its backup
path, the eighth call of the run) no file is at the path of the binary. -/
theorem target_absent_after_backup_rename :
    ReachesInstall exampleEnv "v1.3.0" exampleWorld [127, 69, 76, 70] "/usr/local/bin/bashgpt" ∧
    exampleEnv.backupRenameFault = none ∧ exampleEnv.installRenameFault = none ∧
    exampleEnv.bakRemoveFault = none ∧
    (upgradeViaGithub exampleEnv "v1.3.0" exampleWorld).1 = none ∧
    ((upgradeViaGithub exampleEnv "v1.3.0" exampleWorld).2.log.map
      (fun e => (e.1, e.2 "/usr/local/bin/bashgpt")))[7]? =
      some (Event.rename "/usr/local/bin/bashgpt" "/usr/local/bin/bashgpt.bak", none) :=
  ⟨⟨rfl, rfl, by decide, rfl, rfl, rfl, ⟨"/usr/local/bin/bashgpt", rfl, rfl⟩⟩, rfl, rfl, rfl,
    by decide, by decide⟩

/-- C1, amended: in a run where every step succeeds and the temporary file is
renamed onto the binary's path, the installer makes exactly three calls on the
file system.  After the first (the backup rename) the path of the binary names
no file and the backup path holds the original binary; after the second (the
install rename) and after the third (the removal of the backup) the path of
the binary holds the downloaded bytes with mode 0755.  Before the installer
starts the path holds the original binary. -/
theorem install_intermediate_states (env : Env) (latestVer : String) (w : World)
    (binaryContent : List (Fin 256)) (P : String) (orig : File)
    (hreach : ReachesInstall env latestVer w binaryContent P)
    (horig : w.fs P = some orig)
    (hbak : env.backupRenameFault = none)
    (hinst : env.installRenameFault = none)
    (hrm : env.bakRemoveFault = none) :
    ∃ (pre : List (Event × FS)) (s1 s2 s3 : FS),
      newLog w (upgradeViaGithub env latestVer w).2 =
        pre ++ [(Event.rename P (P ++ ".bak"), s1), (Event.rename (tempName env) P, s2),
          (Event.remove (P ++ ".bak"), s3),
          (Event.stdout ("Upgrade " ++ P ++ " to " ++ latestVer ++ " complete\n"), s3)] ∧
      (∀ e ∈ pre, e.1.isFetch = true ∧ e.2 P = some orig) ∧
      (s1 P = none ∧ s1 (P ++ ".bak") = some orig) ∧
      s2 P = some { content := binaryContent, mode := 0o755 } ∧
      s3 P = some { content := binaryContent, mode := 0o755 } := by
  have ht1 : tempName env ≠ P := tempName_ne_path env w P orig hreach.fresh horig
  have ht2 : tempName env ≠ P ++ ".bak" := tempName_ne_bak env P
  have hb : P ++ ".bak" ≠ P := bak_ne P
  obtain ⟨w1, hrun, htmp, hfs, pre, hlog, hpre⟩ :=
    upgradeViaGithub_reaches env latestVer w binaryContent P hreach
  have hP : w1.fs P = some orig := by rw [hfs P (Ne.symm ht1), horig]
  refine ⟨pre, (w1.fs.set P none).set (P ++ ".bak") (some orig),
    (((w1.fs.set P none).set (P ++ ".bak") (some orig)).set (tempName env) none).set P
      (some { content := binaryContent, mode := 0o755 }),
    ((((w1.fs.set P none).set (P ++ ".bak") (some orig)).set (tempName env) none).set P
      (some { content := binaryContent, mode := 0o755 })).set (P ++ ".bak") none,
    ?_, ?_, ?_, ?_, ?_⟩
  · rw [hrun]
    simp [install, osRename, osRemove, errorsIs, World.record, FS.set_same, FS.set_other, hbak,
      hinst, hrm, hP, htmp, ht1, ht2, hb, Ne.symm ht1, Ne.symm ht2, Ne.symm hb, newLog, hlog]
  · intro e he
    exact ⟨(hpre e he).1, by rw [(hpre e he).2 P (Ne.symm ht1), horig]⟩
  · simp [FS.set, Ne.symm hb, hb]
  · simp [FS.set, Ne.symm hb, hb, ht1, ht2, htmp]
  · simp [FS.set, Ne.symm hb, hb, ht1, ht2, htmp]

/-- C1, amended, at the example. -/
theorem install_intermediate_states_witness :
    ReachesInstall exampleEnv "v1.3.0" exampleWorld [127, 69, 76, 70] "/usr/local/bin/bashgpt" ∧
    ∃ (pre : List (Event × FS)) (s1 s2 s3 : FS),
      newLog exampleWorld (upgradeViaGithub exampleEnv "v1.3.0" exampleWorld).2 =
        pre ++ [(Event.rename "/usr/local/bin/bashgpt" ("/usr/local/bin/bashgpt" ++ ".bak"), s1),
          (Event.rename (tempName exampleEnv) "/usr/local/bin/bashgpt", s2),
          (Event.remove ("/usr/local/bin/bashgpt" ++ ".bak"), s3),
          (Event.stdout ("Upgrade " ++ "/usr/local/bin/bashgpt" ++ " to " ++ "v1.3.0" ++
            " complete\n"), s3)] ∧
      (∀ e ∈ pre, e.1.isFetch = true ∧ e.2 "/usr/local/bin/bashgpt" = some exampleBinary) ∧
      (s1 "/usr/local/bin/bashgpt" = none ∧
        s1 ("/usr/local/bin/bashgpt" ++ ".bak") = some exampleBinary) ∧
      s2 "/usr/local/bin/bashgpt" = some { content := [127, 69, 76, 70], mode := 0o755 } ∧
      s3 "/usr/local/bin/bashgpt" = some { content := [127, 69, 76, 70], mode := 0o755 } :=
  have hreach : ReachesInstall exampleEnv "v1.3.0" exampleWorld [127, 69, 76, 70]
      "/usr/local/bin/bashgpt" :=
    ⟨rfl, rfl, by decide, rfl, rfl, rfl, ⟨"/usr/local/bin/bashgpt", rfl, rfl⟩⟩
  ⟨hreach,
    install_intermediate_states exampleEnv "v1.3.0" exampleWorld [127, 69, 76, 70]
      "/usr/local/bin/bashgpt" exampleBinary hreach (by decide) rfl rfl rfl⟩

/-- C2: when the backup rename succeeds, the install step fails (the rename of
the temporary file fails with an errno other than EXDEV, or it fails with
EXDEV and the fallback write fails too) and the rollback rename succeeds,
`upgradeViaGithub` leaves the original binary, bytes and mode, at its path and
returns a non-nil error that wraps the failure of the install step. -/
theorem rollback_restores_original (env : Env) (latestVer : String) (w : World)
    (binaryContent : List (Fin 256)) (P : String) (orig : File) (e : Errno)
    (hreach : ReachesInstall env latestVer w binaryContent P)
    (horig : w.fs P = some orig)
    (hbak : env.backupRenameFault = none)
    (hinst : env.installRenameFault = some e)
    (hfail : e = EXDEV → env.fallbackWriteFault ≠ none)
    (hroll : env.rollbackRenameFault = none) :
    (upgradeViaGithub env latestVer w).2.fs P = some orig ∧
    ∃ cause, (upgradeViaGithub env latestVer w).1 = some (.wrapf (couldNotReplace P) cause) ∧
      ((e ≠ EXDEV ∧ cause = .linkError "rename" (tempName env) P e) ∨
        (e = EXDEV ∧ ∃ wf, env.fallbackWriteFault = some wf ∧ cause = wf.error P)) := by
  have ht1 : tempName env ≠ P := tempName_ne_path env w P orig hreach.fresh horig
  have ht2 : tempName env ≠ P ++ ".bak" := tempName_ne_bak env P
  have hb : P ++ ".bak" ≠ P := bak_ne P
  obtain ⟨w1, hrun, htmp, hfs, -⟩ := upgradeViaGithub_reaches env latestVer w binaryContent P hreach
  have hP : w1.fs P = some orig := by rw [hfs P (Ne.symm ht1), horig]
  rw [hrun]
  by_cases he : e = EXDEV
  · subst he
    cases hwf : env.fallbackWriteFault with
    | none => exact absurd hwf (hfail rfl)
    | some wf =>
      cases wf <;> cases hrmt : env.tmpRemoveFault <;>
        simp [install, osRename, osRemove, ioutilWriteFile, errorsIs, GoError.isErrno,
          WriteFault.error, World.record, FS.set, hbak, hinst, hroll, hwf, hrmt, hP, htmp,
          ht1, ht2, hb, Ne.symm ht1, Ne.symm ht2, Ne.symm hb]
  · simp [install, osRename, errorsIs, GoError.isErrno, World.record, FS.set, hbak, hinst, hroll,
      hP, htmp, ht1, ht2, hb, Ne.symm ht1, Ne.symm ht2, Ne.symm hb, he]

/-- C2 at the example with the install rename failing with EACCES (13). -/
theorem rollback_restores_original_witness :
    ReachesInstall { exampleEnv with installRenameFault := some 13 } "v1.3.0" exampleWorld
      [127, 69, 76, 70] "/usr/local/bin/bashgpt" ∧
    (upgradeViaGithub { exampleEnv with installRenameFault := some 13 } "v1.3.0"
      exampleWorld).2.fs "/usr/local/bin/bashgpt" = some exampleBinary :=
  have hreach : ReachesInstall { exampleEnv with installRenameFault := some 13 } "v1.3.0"
      exampleWorld [127, 69, 76, 70] "/usr/local/bin/bashgpt" :=
    ⟨rfl, rfl, by decide, rfl, rfl, rfl, ⟨"/usr/local/bin/bashgpt", rfl, rfl⟩⟩
  ⟨hreach,
    (rollback_restores_original { exampleEnv with installRenameFault := some 13 } "v1.3.0"
      exampleWorld [127, 69, 76, 70] "/usr/local/bin/bashgpt" exampleBinary 13 hreach
      (by decide) rfl rfl (by decide) rfl).1⟩

/-- The error of a failed install step does not depend on what becomes of the
rollback: it is the failure of the install step, wrapped. -/
theorem install_failure_error (env : Env) (latestVer : String) (w : World)
    (binaryContent : List (Fin 256)) (P : String) (orig : File) (e : Errno)
    (hreach : ReachesInstall env latestVer w binaryContent P)
    (horig : w.fs P = some orig)
    (hbak : env.backupRenameFault = none)
    (hinst : env.installRenameFault = some e)
    (hfail : e = EXDEV → env.fallbackWriteFault ≠ none) :
    (upgradeViaGithub env latestVer w).1 =
      some (.wrapf (couldNotReplace P)
        (if e = EXDEV then
          (match env.fallbackWriteFault with
            | some wf => wf.error P
            | none => .linkError "rename" (tempName env) P e)
        else .linkError "rename" (tempName env) P e)) := by
  have ht1 : tempName env ≠ P := tempName_ne_path env w P orig hreach.fresh horig
  have ht2 : tempName env ≠ P ++ ".bak" := tempName_ne_bak env P
  have hb : P ++ ".bak" ≠ P := bak_ne P
  obtain ⟨w1, hrun, htmp, hfs, -⟩ := upgradeViaGithub_reaches env latestVer w binaryContent P hreach
  have hP : w1.fs P = some orig := by rw [hfs P (Ne.symm ht1), horig]
  rw [hrun]
  by_cases he : e = EXDEV
  · subst he
    cases hwf : env.fallbackWriteFault with
    | none => exact absurd hwf (hfail rfl)
    | some wf =>
      cases wf <;>
        simp [install, osRename, osRemove, ioutilWriteFile, errorsIs, GoError.isErrno,
          WriteFault.error, World.record, FS.set, hbak, hinst, hwf, hP, htmp,
          ht1, ht2, hb, Ne.symm ht1, Ne.symm ht2, Ne.symm hb]
  · simp [install, osRename, errorsIs, GoError.isErrno, World.record, FS.set, hbak, hinst,
      hP, htmp, ht1, ht2, hb, Ne.symm ht1, Ne.symm ht2, Ne.symm hb, he]

/-- C3, as stated, fails: with the install rename failing with EACCES (13),
the run in which the rollback rename fails too (EIO, 5) returns the very error
that the run with a successful rollback returns, although it leaves no file at
the path of the binary and the other run leaves the original there. -/
theorem rollback_failure_same_error :
    (upgradeViaGithub
        { exampleEnv with installRenameFault := some 13, rollbackRenameFault := some 5 }
        "v1.3.0" exampleWorld).1 =
      (upgradeViaGithub
        { exampleEnv with installRenameFault := some 13, rollbackRenameFault := none }
        "v1.3.0" exampleWorld).1 ∧
    (upgradeViaGithub
        { exampleEnv with installRenameFault := some 13, rollbackRenameFault := some 5 }
        "v1.3.0" exampleWorld).2.fs "/usr/local/bin/bashgpt" = none ∧
    (upgradeViaGithub
        { exampleEnv with installRenameFault := some 13, rollbackRenameFault := none }
        "v1.3.0" exampleWorld).2.fs "/usr/local/bin/bashgpt" = some exampleBinary := by
  decide

/-- C3, amended: when the backup rename succeeds, the install step fails and
the rollback rename fails too, `upgradeViaGithub` returns the same non-nil
error as the otherwise identical run in which the rollback succeeds (the
result of the rollback rename is discarded); the original binary is then at
the backup path, and, unless the fallback write was tried, no file is at the
path of the binary. -/
theorem rollback_failure_not_reported (env : Env) (latestVer : String) (w : World)
    (binaryContent : List (Fin 256)) (P : String) (orig : File) (e e2 : Errno)
    (hreach : ReachesInstall env latestVer w binaryContent P)
    (horig : w.fs P = some orig)
    (hbak : env.backupRenameFault = none)
    (hinst : env.installRenameFault = some e)
    (hfail : e = EXDEV → env.fallbackWriteFault ≠ none)
    (hroll : env.rollbackRenameFault = some e2) :
    (upgradeViaGithub env latestVer w).1 =
      (upgradeViaGithub { env with rollbackRenameFault := none } latestVer w).1 ∧
    (∃ cause, (upgradeViaGithub env latestVer w).1 = some (.wrapf (couldNotReplace P) cause)) ∧
    (upgradeViaGithub env latestVer w).2.fs (P ++ ".bak") = some orig ∧
    (e ≠ EXDEV → (upgradeViaGithub env latestVer w).2.fs P = none) := by
  have hreach2 : ReachesInstall { env with rollbackRenameFault := none } latestVer w
      binaryContent P :=
    ⟨hreach.get, hreach.create, hreach.fresh, hreach.write, hreach.chmod, hreach.close,
      hreach.path⟩
  have h1 := install_failure_error env latestVer w binaryContent P orig e hreach horig hbak
    hinst hfail
  have h2 := install_failure_error { env with rollbackRenameFault := none } latestVer w
    binaryContent P orig e hreach2 horig hbak hinst hfail
  refine ⟨h1.trans h2.symm, ⟨_, h1⟩, ?_, ?_⟩
  all_goals
    have ht1 : tempName env ≠ P := tempName_ne_path env w P orig hreach.fresh horig
    have ht2 : tempName env ≠ P ++ ".bak" := tempName_ne_bak env P
    have hb : P ++ ".bak" ≠ P := bak_ne P
    obtain ⟨w1, hrun, htmp, hfs, -⟩ :=
      upgradeViaGithub_reaches env latestVer w binaryContent P hreach
    have hP : w1.fs P = some orig := by rw [hfs P (Ne.symm ht1), horig]
    rw [hrun]
  · by_cases he : e = EXDEV
    · subst he
      cases hwf : env.fallbackWriteFault with
      | none => exact absurd hwf (hfail rfl)
      | some wf =>
        cases wf <;> cases hrmt : env.tmpRemoveFault <;>
          simp [install, osRename, osRemove, ioutilWriteFile, errorsIs, GoError.isErrno,
            WriteFault.error, World.record, FS.set, hbak, hinst, hroll, hwf, hrmt, hP, htmp,
            ht1, ht2, hb, Ne.symm ht1, Ne.symm ht2, Ne.symm hb]
    · simp [install, osRename, errorsIs, GoError.isErrno, World.record, FS.set, hbak, hinst,
        hroll, hP, htmp, ht1, ht2, hb, Ne.symm ht1, Ne.symm ht2, Ne.symm hb, he]
  · intro he
    simp [install, osRename, errorsIs, GoError.isErrno, World.record, FS.set, hbak, hinst,
      hroll, hP, htmp, ht1, ht2, hb, Ne.symm ht1, Ne.symm ht2, Ne.symm hb, he]

/-- C3, amended, at the example with the install rename failing with EACCES
(13) and the rollback rename with EIO (5). -/
theorem rollback_failure_not_reported_witness :
    ReachesInstall
      { exampleEnv with installRenameFault := some 13, rollbackRenameFault := some 5 }
      "v1.3.0" exampleWorld [127, 69, 76, 70] "/usr/local/bin/bashgpt" ∧
    (upgradeViaGithub
        { exampleEnv with installRenameFault := some 13, rollbackRenameFault := some 5 }
        "v1.3.0" exampleWorld).2.fs ("/usr/local/bin/bashgpt" ++ ".bak") = some exampleBinary :=
  have hreach : ReachesInstall
      { exampleEnv with installRenameFault := some 13, rollbackRenameFault := some 5 }
      "v1.3.0" exampleWorld [127, 69, 76, 70] "/usr/local/bin/bashgpt" :=
    ⟨rfl, rfl, by decide, rfl, rfl, rfl, ⟨"/usr/local/bin/bashgpt", rfl, rfl⟩⟩
  ⟨hreach,
    (rollback_failure_not_reported
      { exampleEnv with installRenameFault := some 13, rollbackRenameFault := some 5 }
      "v1.3.0" exampleWorld [127, 69, 76, 70] "/usr/local/bin/bashgpt" exampleBinary 13 5
      hreach (by decide) rfl rfl (by decide) rfl).2.2.1⟩

/-- A permission keeps all its bits under a umask that has none of them. -/
theorem maskPerm_disjoint (perm umask : Nat) (h : perm &&& umask = 0) :
    maskPerm perm umask = perm := by
  simp [maskPerm, h]

/-- What the cross-device fallback does, for every umask: when the backup
rename succeeds, the rename of the temporary file fails with EXDEV and the
fallback write succeeds, `upgradeViaGithub` returns nil whatever becomes of the
removal of the temporary file; the path of the binary holds the downloaded
bytes with mode `0755 &^ umask`; the removal of the temporary file is
attempted, and the file is gone if the removal succeeds; and no rollback
rename is made. -/
theorem cross_device_fallback_run (env : Env) (latestVer : String) (w : World)
    (binaryContent : List (Fin 256)) (P : String) (orig : File)
    (hreach : ReachesInstall env latestVer w binaryContent P)
    (horig : w.fs P = some orig)
    (hbak : env.backupRenameFault = none)
    (hinst : env.installRenameFault = some EXDEV)
    (hwrite : env.fallbackWriteFault = none) :
    (upgradeViaGithub env latestVer w).1 = none ∧
    (upgradeViaGithub env latestVer w).2.fs P =
      some { content := binaryContent, mode := maskPerm 0o755 env.umask } ∧
    (∃ s, (Event.remove (tempName env), s) ∈ newLog w (upgradeViaGithub env latestVer w).2) ∧
    (env.tmpRemoveFault = none → (upgradeViaGithub env latestVer w).2.fs (tempName env) = none) ∧
    (∀ s, (Event.rename (P ++ ".bak") P, s) ∉ newLog w (upgradeViaGithub env latestVer w).2) := by
  have ht1 : tempName env ≠ P := tempName_ne_path env w P orig hreach.fresh horig
  have ht2 : tempName env ≠ P ++ ".bak" := tempName_ne_bak env P
  have hb : P ++ ".bak" ≠ P := bak_ne P
  obtain ⟨w1, hrun, htmp, hfs, pre, hlog, hpre⟩ :=
    upgradeViaGithub_reaches env latestVer w binaryContent P hreach
  have hP : w1.fs P = some orig := by rw [hfs P (Ne.symm ht1), horig]
  have hnf : ∀ s, (Event.rename (P ++ ".bak") P, s) ∉ pre := fun s hs => by
    simpa [Event.isFetch] using (hpre _ hs).1
  rw [hrun]
  cases hrmt : env.tmpRemoveFault <;> cases hrmb : env.bakRemoveFault <;>
    simp [install, osRename, osRemove, ioutilWriteFile, errorsIs, GoError.isErrno,
      World.record, FS.set_same, FS.set_other, hbak, hinst, hwrite, hrmt, hrmb, hP, htmp,
      ht1, ht2, hb, Ne.symm ht1, Ne.symm ht2, Ne.symm hb, newLog, hlog, hnf]

/-- C5: after the cross-device fallback the file at the path of the binary
does not always have permission 0755.  In the example run under the umask
077, with the backup rename succeeding, the rename of the temporary file
failing with EXDEV and the fallback write succeeding, `upgradeViaGithub`
returns nil and the path of the binary holds the downloaded bytes with mode
0700: `ioutil.WriteFile` creates the file, so the umask applies, and nothing
sets the mode afterwards.  Under the same umask the run whose rename succeeds
leaves mode 0755 there, the mode `tmpFile.Chmod` gave the temporary file. -/
theorem cross_device_fallback_mode_masked :
    ReachesInstall { exampleEnv with umask := 0o077, installRenameFault := some EXDEV }
      "v1.3.0" exampleWorld [127, 69, 76, 70] "/usr/local/bin/bashgpt" ∧
    (upgradeViaGithub { exampleEnv with umask := 0o077, installRenameFault := some EXDEV }
        "v1.3.0" exampleWorld).1 = none ∧
    (upgradeViaGithub { exampleEnv with umask := 0o077, installRenameFault := some EXDEV }
        "v1.3.0" exampleWorld).2.fs "/usr/local/bin/bashgpt" =
      some { content := [127, 69, 76, 70], mode := 0o700 } ∧
    (upgradeViaGithub { exampleEnv with umask := 0o077 } "v1.3.0"
        exampleWorld).2.fs "/usr/local/bin/bashgpt" =
      some { content := [127, 69, 76, 70], mode := 0o755 } :=
  ⟨⟨rfl, rfl, by decide, rfl, rfl, rfl, ⟨"/usr/local/bin/bashgpt", rfl, rfl⟩⟩,
    by decide, by decide, by decide⟩

/-- C6: when the backup rename fails, `upgradeViaGithub` returns at once with
a non-nil error wrapping the failure of the rename; the original binary is
still at its path, the backup path is as it was, and the failed rename is the
last call of the run: no install rename, no fallback write, no rollback rename
and no removal of the backup is attempted. -/
theorem backup_failure_aborts (env : Env) (latestVer : String) (w : World)
    (binaryContent : List (Fin 256)) (P : String) (orig : File) (e : Errno)
    (hreach : ReachesInstall env latestVer w binaryContent P)
    (horig : w.fs P = some orig)
    (hbak : env.backupRenameFault = some e) :
    (upgradeViaGithub env latestVer w).1 =
      some (.wrapf (couldNotReplace P) (.linkError "rename" P (P ++ ".bak") e)) ∧
    (upgradeViaGithub env latestVer w).2.fs P = some orig ∧
    (upgradeViaGithub env latestVer w).2.fs (P ++ ".bak") = w.fs (P ++ ".bak") ∧
    ∃ pre : List (Event × FS),
      newLog w (upgradeViaGithub env latestVer w).2 =
        pre ++ [(Event.rename P (P ++ ".bak"), (upgradeViaGithub env latestVer w).2.fs)] ∧
      ∀ ev ∈ pre, ev.1.isFetch = true := by
  have ht1 : tempName env ≠ P := tempName_ne_path env w P orig hreach.fresh horig
  have ht2 : tempName env ≠ P ++ ".bak" := tempName_ne_bak env P
  obtain ⟨w1, hrun, htmp, hfs, pre, hlog, hpre⟩ :=
    upgradeViaGithub_reaches env latestVer w binaryContent P hreach
  have hP : w1.fs P = some orig := by rw [hfs P (Ne.symm ht1), horig]
  have hB : w1.fs (P ++ ".bak") = w.fs (P ++ ".bak") := hfs _ (Ne.symm ht2)
  rw [hrun]
  refine ⟨?_, ?_, ?_, pre, ?_, fun ev hev => (hpre ev hev).1⟩ <;>
    simp [install, osRename, World.record, hbak, hP, hB, newLog, hlog]

/-- C6 at the example with the backup rename failing with EACCES (13). -/
theorem backup_failure_aborts_witness :
    ReachesInstall { exampleEnv with backupRenameFault := some 13 } "v1.3.0" exampleWorld
      [127, 69, 76, 70] "/usr/local/bin/bashgpt" ∧
    (upgradeViaGithub { exampleEnv with backupRenameFault := some 13 } "v1.3.0"
        exampleWorld).1 =
      some (.wrapf (couldNotReplace "/usr/local/bin/bashgpt")
        (.linkError "rename" "/usr/local/bin/bashgpt" ("/usr/local/bin/bashgpt" ++ ".bak") 13)) ∧
    (upgradeViaGithub { exampleEnv with backupRenameFault := some 13 } "v1.3.0"
        exampleWorld).2.fs "/usr/local/bin/bashgpt" = some exampleBinary :=
  have hreach : ReachesInstall { exampleEnv with backupRenameFault := some 13 } "v1.3.0"
      exampleWorld [127, 69, 76, 70] "/usr/local/bin/bashgpt" :=
    ⟨rfl, rfl, by decide, rfl, rfl, rfl, ⟨"/usr/local/bin/bashgpt", rfl, rfl⟩⟩
  have h := backup_failure_aborts { exampleEnv with backupRenameFault := some 13 } "v1.3.0"
    exampleWorld [127, 69, 76, 70] "/usr/local/bin/bashgpt" exampleBinary 13 hreach
    (by decide) rfl
  ⟨hreach, h.1, h.2.1⟩

/-! ## Theorems: `upgradeMain` and `checkAndPrintUpgradeWarning` -/

/-- The lookup changes no file and logs one call: the request. -/
theorem getLatestVersion_world (env : Env) (w : World) :
    (getLatestVersion env w).2 = w.record (.httpGet LatestReleaseUrl) w.fs := by
  unfold getLatestVersion
  split <;> try rfl
  split <;> rfl

theorem record_log (w : World) (ev : Event) (fs : FS) : w.log <+: (w.record ev fs).log := by
  simp [World.record]

theorem osRename_log (fault : Option Errno) (old new : String) (w : World) :
    w.log <+: (osRename fault old new w).2.log := by
  unfold osRename
  repeat' split
  all_goals exact record_log _ _ _

theorem osRemove_log (fault : Option Errno) (name : String) (w : World) :
    w.log <+: (osRemove fault name w).2.log := by
  unfold osRemove
  repeat' split
  all_goals exact record_log _ _ _

theorem ioutilWriteFile_log (umask : Nat) (fault : Option WriteFault) (name : String)
    (data : List (Fin 256)) (perm : Nat) (w : World) :
    w.log <+: (ioutilWriteFile umask fault name data perm w).2.log := by
  unfold ioutilWriteFile
  repeat' split
  all_goals exact record_log _ _ _

theorem osCreateTemp_log (env : Env) (w : World) : w.log <+: (osCreateTemp env w).2.log := by
  unfold osCreateTemp
  repeat' split
  all_goals exact record_log _ _ _

theorem fileWrite_log (fault : Option (Errno × Nat)) (name : String) (data : List (Fin 256))
    (w : World) : w.log <+: (fileWrite fault name data w).2.log := by
  unfold fileWrite
  repeat' split
  all_goals exact record_log _ _ _

theorem fileChmod_log (fault : Option Errno) (name : String) (mode : Nat) (w : World) :
    w.log <+: (fileChmod fault name mode w).2.log := by
  unfold fileChmod
  repeat' split
  all_goals exact record_log _ _ _

theorem fileClose_log (fault : Option Errno) (name : String) (w : World) :
    w.log <+: (fileClose fault name w).2.log := by
  unfold fileClose
  repeat' split
  all_goals exact record_log _ _ _

/-- The installer adds to the log and removes nothing. -/
theorem install_log (env : Env) (latestVer tmpName : String) (binaryContent : List (Fin 256))
    (P : String) (w : World) :
    w.log <+: (install env latestVer tmpName binaryContent P w).2.log := by
  have h1 := osRename_log env.backupRenameFault P (P ++ ".bak") w
  unfold install
  dsimp only
  split
  · next err w1 heq =>
    rw [heq] at h1
    exact h1
  · next w1 heq =>
    rw [heq] at h1
    have h2 := osRename_log env.installRenameFault tmpName P w1
    refine h1.trans ?_
    have h3 : w1.log <+:
        (if errorsIs (osRename env.installRenameFault tmpName P w1).1 EXDEV = true then
          ((ioutilWriteFile env.umask env.fallbackWriteFault P binaryContent 0o755
              (osRename env.installRenameFault tmpName P w1).2).1,
            (osRemove env.tmpRemoveFault tmpName
              (ioutilWriteFile env.umask env.fallbackWriteFault P binaryContent 0o755
                (osRename env.installRenameFault tmpName P w1).2).2).2)
        else osRename env.installRenameFault tmpName P w1).2.log := by
      split
      · exact h2.trans ((ioutilWriteFile_log _ _ _ _ _ _).trans (osRemove_log _ _ _))
      · exact h2
    dsimp only
    split
    · exact h3.trans (osRename_log _ _ _ _)
    · exact h3.trans ((osRemove_log _ _ _).trans (record_log _ _ _))

/-- The function `upgradeViaGithub` adds to the log and removes nothing. -/
theorem upgradeViaGithub_log (env : Env) (latestVer : String) (w : World) :
    w.log <+: (upgradeViaGithub env latestVer w).2.log := by
  have h0 := record_log w (.httpGet (latestDownloadUrl latestVer)) w.fs
  unfold upgradeViaGithub
  dsimp only
  split
  · exact h0
  · have h1 := osCreateTemp_log env (w.record (.httpGet (latestDownloadUrl latestVer)) w.fs)
    split
    · next heq => rw [heq] at h1; exact h0.trans h1
    · next tmpName w1 heq =>
      rw [heq] at h1
      split
      · exact h0.trans h1
      · next binaryContent _ =>
        have h2 := fileWrite_log env.tmpWriteFault tmpName binaryContent w1
        split
        · next heq2 => rw [heq2] at h2; exact h0.trans (h1.trans h2)
        · next w2 heq2 =>
          rw [heq2] at h2
          have h3 := fileChmod_log env.tmpChmodFault tmpName 0o755 w2
          split
          · next heq3 => rw [heq3] at h3; exact h0.trans (h1.trans (h2.trans h3))
          · next w3 heq3 =>
            rw [heq3] at h3
            have h4 := fileClose_log env.tmpCloseFault tmpName w3
            split
            · next heq4 => rw [heq4] at h4; exact h0.trans (h1.trans (h2.trans (h3.trans h4)))
            · next w4 heq4 =>
              rw [heq4] at h4
              have h5 := h0.trans (h1.trans (h2.trans (h3.trans h4)))
              split
              · exact h5.trans (record_log _ _ _)
              · split
                · exact h5.trans ((record_log _ _ _).trans (record_log _ _ _))
                · exact h5.trans ((record_log _ _ _).trans ((record_log _ _ _).trans
                    (install_log _ _ _ _ _ _)))

/-- C7: for a version that is not the development version and a lookup that
returns the tag `tag`: when `tag` is the embedded version, `upgradeMain`
returns nil, changes no file, and makes no call but the lookup request and the
message that the version is the latest (no question, no read of the answer, no
download); when `tag` differs from the embedded version, the question is
printed and the answer is read right after the lookup. -/
theorem version_equality_short_circuit (env : Env) (args : List String) (w : World)
    (tag : String)
    (hdev : env.versionText ≠ DevVersionText)
    (hlook : (getLatestVersion env w).1 = .ok tag) :
    (tag = env.versionText →
      (upgradeMain env args w).1 = .returned none ∧
      (upgradeMain env args w).2.fs = w.fs ∧
      newLog w (upgradeMain env args w).2 =
        [(Event.httpGet LatestReleaseUrl, w.fs),
          (Event.stdout (CommandName ++ " " ++ env.versionText ++
            " is already the latest version\n"), w.fs)]) ∧
    (tag ≠ env.versionText →
      ∃ rest, newLog w (upgradeMain env args w).2 =
        [(Event.httpGet LatestReleaseUrl, w.fs), (Event.stdout (upgradePrompt tag), w.fs),
          (Event.scanf, w.fs)] ++ rest) := by
  have hpair : getLatestVersion env w =
      (.ok tag, w.record (.httpGet LatestReleaseUrl) w.fs) :=
    Prod.ext hlook (getLatestVersion_world env w)
  constructor
  · intro htag
    simp [upgradeMain, hdev, hpair, htag, World.record, newLog]
  · intro htag
    simp only [upgradeMain, hdev, hpair, htag, if_false]
    split
    · exact ⟨[], by simp [World.record, newLog]⟩
    · split
      · exact ⟨[], by simp [World.record, newLog]⟩
      · obtain ⟨rest, hrest⟩ := upgradeViaGithub_log env tag
          ((((w.record (.httpGet LatestReleaseUrl) w.fs).record
            (.stdout (upgradePrompt tag)) w.fs).record .scanf w.fs).record
            (.stdout ("Upgrading " ++ env.versionText ++ " from " ++ CommandName ++ " to " ++
              tag ++ "...\n")) w.fs)
        refine ⟨(Event.stdout ("Upgrading " ++ env.versionText ++ " from " ++ CommandName ++
          " to " ++ tag ++ "...\n"), w.fs) :: rest, ?_⟩
        simp only [newLog, World.record] at hrest ⊢
        rw [← hrest]
        simp

/-- C7 at the example of a binary of version 1.3.0 when 1.3.0 is the latest. -/
theorem version_equality_short_circuit_witness :
    ({ exampleEnv with versionText := "v1.3.0" } : Env).versionText ≠ DevVersionText ∧
    (getLatestVersion { exampleEnv with versionText := "v1.3.0" } exampleWorld).1 =
      .ok "v1.3.0" ∧
    (upgradeMain { exampleEnv with versionText := "v1.3.0" } ["upgrade"] exampleWorld).1 =
      .returned none ∧
    (upgradeMain { exampleEnv with versionText := "v1.3.0" } ["upgrade"] exampleWorld).2.fs =
      exampleWorld.fs :=
  have h := (version_equality_short_circuit { exampleEnv with versionText := "v1.3.0" }
    ["upgrade"] exampleWorld "v1.3.0" (by decide) rfl).1 rfl
  ⟨by decide, rfl, h.1, h.2.1⟩

/-- C8: when the embedded version is the development version, `upgradeMain`
returns nil after one message on standard error, and
`checkAndPrintUpgradeWarning` returns false and does nothing: neither issues
the lookup request, downloads, or changes a file, whatever the arguments, the
network and the file system. -/
theorem dev_build_suppression (env : Env) (args : List String) (w : World)
    (hdev : env.versionText = DevVersionText) :
    (upgradeMain env args w).1 = .returned none ∧
    (upgradeMain env args w).2.fs = w.fs ∧
    newLog w (upgradeMain env args w).2 =
      [(Event.stderr ("Skipping " ++ CommandName ++ " upgrade on development version\n"),
        w.fs)] ∧
    checkAndPrintUpgradeWarning env w = (false, w) := by
  simp [upgradeMain, checkAndPrintUpgradeWarning, hdev, World.record, newLog]

/-- C8 at the example with the development version embedded. -/
theorem dev_build_suppression_witness :
    ({ exampleEnv with versionText := "v0.devbuild" } : Env).versionText = DevVersionText ∧
    (upgradeMain { exampleEnv with versionText := "v0.devbuild" } ["upgrade"] exampleWorld).1 =
      .returned none ∧
    checkAndPrintUpgradeWarning { exampleEnv with versionText := "v0.devbuild" } exampleWorld =
      (false, exampleWorld) :=
  have h := dev_build_suppression { exampleEnv with versionText := "v0.devbuild" } ["upgrade"]
    exampleWorld rfl
  ⟨rfl, h.1, h.2.2.2⟩

end BashGpt
